import Mathlib

/-!
Shallow embedding of the build-orchestration core of this repository
(src/deployment/trigger_build.py, src/deployment/remote_executor.py,
src/deployment/temp_files.py), together with theorems settling the
specification claims about it.

Conventions used throughout:
- Python exceptions are modelled as values of an error type `E`
  (`Option E` for "raised or not", `Except E` for fallible calls).
- Wall-clock time is modelled as a discrete counter: one iteration of a
  polling loop advances time by one tick; sleeps and log output do not
  affect the modelled data flow and are dropped.
- External collaborators (EC2, slack, redis, blob storage, ssh) are
  modelled as an environment that supplies the data each call returns,
  plus an event trace recording which collaborator operations occurred.
-/

/-! ## Resource Lifecycle Orchestrator: `cleanup_functions`
    (src/deployment/trigger_build.py, lines 311-329)

The Python context manager is

  funcs = []
  try: yield funcs
  except Exception as base_e:
      await handle_error(base_e); raise
  finally:
      last_e = None
      for idx in range(len(funcs) - 1, -1, -1):
          func = funcs[idx]
          try: await func()
          except Exception as e:
              last_e = e; await handle_error(e)
      if last_e is not None: raise last_e

Each registered cleanup function is modelled as a pair of the external
events it performs and the error it raises (if any).  Per Python
semantics, a `raise` inside the `finally` block replaces any exception
already in flight. -/

/-- Result of running one `cleanup_functions` unwind (the `finally` block):
the indices executed in execution order, the external events performed,
the errors passed to `handle_error` in order, and the `last_e` variable. -/
structure UnwindResult (Ev E : Type) where
  executed : List Nat
  events : List Ev
  reported : List E
  lastE : Option E
deriving DecidableEq

/-- One step of the unwind loop body at index `idx`: run `funcs[idx]`,
record its events, and on failure record the error and update `last_e`. -/
def unwindStep {Ev E : Type} (funcs : List (List Ev × Option E))
    (r : UnwindResult Ev E) (idx : Nat) : UnwindResult Ev E :=
  match funcs[idx]? with
  | none => r
  | some (evs, none) =>
    { r with executed := r.executed ++ [idx], events := r.events ++ evs }
  | some (evs, some e) =>
    { r with executed := r.executed ++ [idx], events := r.events ++ evs,
             reported := r.reported ++ [e], lastE := some e }

/-- The `finally` block of `cleanup_functions`: iterate
`for idx in range(len(funcs) - 1, -1, -1)` running each function,
continuing past failures and remembering the last one. -/
def runCleanups {Ev E : Type} (funcs : List (List Ev × Option E)) :
    UnwindResult Ev E :=
  (List.range funcs.length).reverse.foldl (unwindStep funcs) ⟨[], [], [], none⟩

/-- Observable result of one whole `cleanup_functions` scope. -/
structure ScopeResult (Ev E : Type) where
  executed : List Nat
  events : List Ev
  reported : List E
  outcome : Option E
deriving DecidableEq

/-- The whole `cleanup_functions` scope: the protected body performed
`bodyEvents` and raised `bodyErr` (or not); then the except clause reports
the body error, and the finally clause runs the unwind.  A non-`none`
`last_e` raised by the finally clause replaces the in-flight body
exception (Python semantics of `raise` in `finally`). -/
def cleanup_functions_scope {Ev E : Type} (bodyEvents : List Ev)
    (bodyErr : Option E) (funcs : List (List Ev × Option E)) :
    ScopeResult Ev E :=
  let u := runCleanups funcs
  { executed := u.executed
    events := bodyEvents ++ u.events
    reported := (match bodyErr with | some e => [e] | none => []) ++ u.reported
    outcome := match u.lastE with
               | some e => some e
               | none => bodyErr }

/-- Specialisation to cleanup functions with no modelled events:
`errs` lists, in registration order, the error each registered function
raises (`none` = the function succeeds). -/
def cleanup_scope_pure {E : Type} (bodyErr : Option E) (errs : List (Option E)) :
    ScopeResult Unit E :=
  cleanup_functions_scope [] bodyErr (errs.map (fun e => ([], e)))

/-- Error raised by cleanup function `idx`, if it exists and fails. -/
def cleanupErrAt {Ev E : Type} (funcs : List (List Ev × Option E)) (idx : Nat) :
    Option E :=
  match funcs[idx]? with
  | some (_, oe) => oe
  | none => none

/-- Events performed by cleanup function `idx` (none if out of range). -/
def cleanupEvsAt {Ev E : Type} (funcs : List (List Ev × Option E)) (idx : Nat) :
    List Ev :=
  match funcs[idx]? with
  | some (evs, _) => evs
  | none => []

theorem unwind_foldl_spec {Ev E : Type} (funcs : List (List Ev × Option E)) :
    ∀ (L : List Nat) (r : UnwindResult Ev E), (∀ i ∈ L, i < funcs.length) →
    L.foldl (unwindStep funcs) r =
      ⟨r.executed ++ L,
       r.events ++ L.flatMap (cleanupEvsAt funcs),
       r.reported ++ L.filterMap (cleanupErrAt funcs),
       (L.filterMap (cleanupErrAt funcs)).foldl (fun _ e => some e) r.lastE⟩ := by
  intro L
  induction L with
  | nil => intro r _; simp
  | cons idx L ih =>
    intro r hb
    have hidx : idx < funcs.length := hb idx (by simp)
    have hget : funcs[idx]? = some funcs[idx] := List.getElem?_eq_getElem hidx
    have hstep : ∀ rr : UnwindResult Ev E,
        unwindStep funcs rr idx =
          ⟨rr.executed ++ [idx], rr.events ++ cleanupEvsAt funcs idx,
           rr.reported ++ (cleanupErrAt funcs idx).toList,
           match cleanupErrAt funcs idx with
           | some e => some e
           | none => rr.lastE⟩ := by
      intro rr
      unfold unwindStep cleanupEvsAt cleanupErrAt
      rw [hget]
      rcases funcs[idx] with ⟨evs, oe⟩
      cases oe <;> simp
    have hrest : ∀ i ∈ L, i < funcs.length := fun i hi => hb i (by simp [hi])
    rw [List.foldl_cons, hstep, ih _ hrest]
    rcases hoe : cleanupErrAt funcs idx with _ | e <;>
      simp [hoe, List.filterMap_cons, Option.toList]

theorem runCleanups_spec {Ev E : Type} (funcs : List (List Ev × Option E)) :
    runCleanups funcs =
      ⟨(List.range funcs.length).reverse,
       ((List.range funcs.length).reverse).flatMap (cleanupEvsAt funcs),
       ((List.range funcs.length).reverse).filterMap (cleanupErrAt funcs),
       (((List.range funcs.length).reverse).filterMap
          (cleanupErrAt funcs)).foldl (fun _ e => some e) none⟩ := by
  unfold runCleanups
  rw [unwind_foldl_spec funcs _ _ ?_]
  · simp
  · intro i hi
    simpa using List.mem_range.mp (List.mem_reverse.mp hi)

theorem foldl_choose_last {E : Type} (l : List E) (x : E) (a : Option E) :
    (l ++ [x]).foldl (fun _ e => some e) a = some x := by
  rw [List.foldl_append]
  simp

theorem range_reverse_decomp (n j : Nat) (hj : j < n) :
    (List.range n).reverse =
      (List.range' (j + 1) (n - j - 1)).reverse ++ j :: (List.range j).reverse := by
  have h2 := List.range'_append 0 (j + 1) (n - j - 1) 1
  simp only [Nat.zero_add, Nat.one_mul] at h2
  have h3 : n - j - 1 + (j + 1) = n := by omega
  rw [h3] at h2
  have h1 : List.range n = (List.range j ++ [j]) ++ List.range' (j + 1) (n - j - 1) := by
    rw [List.range_eq_range', ← h2, ← List.range_eq_range', List.range_succ]
  rw [h1]
  simp [List.reverse_append]

theorem cleanupErrAt_pure {E : Type} (errs : List (Option E)) (i : Nat) :
    cleanupErrAt (errs.map (fun e => (([] : List Unit), e))) i =
      match errs[i]? with
      | some oe => oe
      | none => none := by
  unfold cleanupErrAt
  rw [List.getElem?_map]
  rcases errs[i]? with _ | oe <;> simp

theorem scope_last_fail {E : Type} (e0 f : E) (errs : List (Option E)) (j : Nat)
    (hj : errs[j]? = some (some f))
    (hafter : ∀ i, i < j → errs[i]? = some none) :
    (cleanup_scope_pure (some e0) errs).outcome = some f ∧
    (cleanup_scope_pure (some e0) errs).reported.head? = some e0 ∧
    f ∈ (cleanup_scope_pure (some e0) errs).reported := by
  have hjlt : j < errs.length := by
    by_contra h
    rw [List.getElem?_eq_none (by omega)] at hj
    exact Option.noConfusion hj
  set funcs := errs.map (fun e => (([] : List Unit), e)) with hfuncs
  have hlen : funcs.length = errs.length := by simp [hfuncs]
  have hdec := range_reverse_decomp errs.length j hjlt
  have hfm : ((List.range funcs.length).reverse).filterMap (cleanupErrAt funcs) =
      (((List.range' (j + 1) (errs.length - j - 1)).reverse).filterMap
        (cleanupErrAt funcs)) ++ [f] := by
    rw [hlen, hdec, List.filterMap_append, List.filterMap_cons]
    have hcj : cleanupErrAt funcs j = some f := by
      rw [hfuncs, cleanupErrAt_pure, hj]
    have hcB : ((List.range j).reverse).filterMap (cleanupErrAt funcs) = [] := by
      rw [List.filterMap_eq_nil_iff]
      intro i hi
      have hij : i < j := List.mem_range.mp (List.mem_reverse.mp hi)
      rw [hfuncs, cleanupErrAt_pure, hafter i hij]
    rw [hcj, hcB]
  unfold cleanup_scope_pure cleanup_functions_scope
  rw [runCleanups_spec]
  simp only [← hfuncs, hfm]
  refine ⟨?_, ?_, ?_⟩
  · simp [foldl_choose_last]
  · simp
  · simp

/-- C1.  For every `cleanup_functions` scope with N registered cleanup
actions, when the scope exits -- whether the body completed normally
(`bodyErr = none`) or raised -- the executed indices are exactly
`[N-1, ..., 0]`: every action runs exactly once, in the exact reverse of
registration order, and a failing action (`errs` arbitrary) does not
prevent the remaining actions from running. -/
theorem cleanup_functions_runs_all_in_reverse {E : Type} (bodyErr : Option E)
    (errs : List (Option E)) :
    (cleanup_scope_pure bodyErr errs).executed = (List.range errs.length).reverse ∧
    ∀ i < errs.length, ((cleanup_scope_pure bodyErr errs).executed).count i = 1 := by
  have hex : (cleanup_scope_pure bodyErr errs).executed =
      (List.range errs.length).reverse := by
    unfold cleanup_scope_pure cleanup_functions_scope
    rw [runCleanups_spec]
    simp
  refine ⟨hex, ?_⟩
  intro i hi
  rw [hex, List.count_reverse]
  exact List.count_eq_one_of_mem (List.nodup_range _) (List.mem_range.mpr hi)

/-- C3.  If the protected body raised `e0` and cleanup action `j` fails
with `f` while every action executed after it (index `< j`) succeeds,
then the exception propagated to the caller is `f` (the last failing
cleanup action), not `e0`, while `e0` is still independently reported to
`handle_error` (it heads the reported list). -/
theorem cleanup_failure_replaces_body_error {E : Type} (e0 f : E)
    (errs : List (Option E)) (j : Nat)
    (hj : errs[j]? = some (some f))
    (hafter : ∀ i, i < j → errs[i]? = some none) :
    (cleanup_scope_pure (some e0) errs).outcome = some f ∧
    (cleanup_scope_pure (some e0) errs).reported.head? = some e0 :=
  ⟨(scope_last_fail e0 f errs j hj hafter).1,
   (scope_last_fail e0 f errs j hj hafter).2.1⟩

theorem cleanup_failure_replaces_body_error_witness :
    (cleanup_scope_pure (some 7) [some 9]).outcome = some 9 ∧
    (cleanup_scope_pure (some 7) [some 9]).reported.head? = some 7 :=
  cleanup_failure_replaces_body_error 7 9 [some 9] 0 rfl (fun i hi => by omega)

/-- C4, counterexample.  The claim says the original triggering failure is
what is ultimately propagated, with cleanup failures never substituted
for it.  With body error `0` and a single cleanup action failing with
`1`, the scope propagates `1`, not `0`. -/
theorem cleanup_original_error_not_propagated_counterexample :
    (cleanup_scope_pure (some (0 : Nat)) [some 1]).outcome = some 1 ∧
    (cleanup_scope_pure (some (0 : Nat)) [some 1]).outcome ≠ some 0 := by
  constructor <;> decide

/-- C4, amended.  For every failing run in which the body raised the
triggering failure `e0` and cleanup action `j` was the last to fail
during the unwind (all actions executed after it succeed), the failure
propagated out of the scope is `j`-s failure `f`, which substitutes for
`e0`; `e0` and `f` are both still reported to the error-observation
channel (`e0` first). -/
theorem cleanup_last_failure_substitutes {E : Type} (e0 f : E)
    (errs : List (Option E)) (j : Nat)
    (hj : errs[j]? = some (some f))
    (hafter : ∀ i, i < j → errs[i]? = some none) :
    (cleanup_scope_pure (some e0) errs).outcome = some f ∧
    (cleanup_scope_pure (some e0) errs).reported.head? = some e0 ∧
    f ∈ (cleanup_scope_pure (some e0) errs).reported :=
  scope_last_fail e0 f errs j hj hafter

theorem cleanup_last_failure_substitutes_witness :
    (cleanup_scope_pure (some 3) [none, some 5]).outcome = some 5 ∧
    (cleanup_scope_pure (some 3) [none, some 5]).reported.head? = some 3 ∧
    5 ∈ (cleanup_scope_pure (some 3) [none, some 5]).reported :=
  cleanup_last_failure_substitutes 3 5 [none, some 5] 1 rfl
    (fun i hi => by interval_cases i; rfl)

/-! ## `temp_file` (src/deployment/temp_files.py, lines 16-33)

The context manager generates a fresh random path (the file does not exist
yet), yields it to the body, and in a `finally` clause runs
`try: os.remove(path) except FileNotFoundError: pass`.
The filesystem state is modelled as a single flag: whether the temporary
file currently exists.  The body is an arbitrary function of that flag
returning the new flag and its own outcome. -/

inductive FsRaise
  | fileNotFound
deriving DecidableEq

/-- Modelled from the spec: the standard-library function `os.remove`,
which is external to the repository.  It deletes the file when it exists
and raises `FileNotFoundError` when it does not. -/
def osRemove (tmpExists : Bool) : Bool × Option FsRaise :=
  if tmpExists then (false, none) else (false, some FsRaise.fileNotFound)

/-- The `finally` clause of `temp_file`: attempt the removal and swallow
exactly `FileNotFoundError`. -/
def tempFileCleanup (tmpExists : Bool) : Bool × Option FsRaise :=
  match osRemove tmpExists with
  | (fs, none) => (fs, none)
  | (fs, some FsRaise.fileNotFound) => (fs, none)

/-- The whole `temp_file` scope: run the body on a fresh (non-existent)
file, then run the cleanup; were the cleanup to raise, its error would
replace the body outcome (Python `finally` semantics), which the result
type makes expressible as `Sum.inr`. -/
def temp_file {E A : Type} (body : Bool → Bool × Except E A) :
    Bool × Except (E ⊕ FsRaise) A :=
  let r := body false
  match tempFileCleanup r.1 with
  | (fs, none) => (fs, (r.2).mapError Sum.inl)
  | (fs, some ce) => (fs, Except.error (Sum.inr ce))

/-- C10.  `temp_file` cleanup is safe and idempotent at its public
interface: whatever the body did (created the file or not, returned or
raised), on exit the file is gone, the cleanup itself never raises for a
missing file, and the body outcome -- in particular its exception, if
any -- is returned unreplaced. -/
theorem temp_file_cleanup_safe {E A : Type} (body : Bool → Bool × Except E A) :
    (temp_file body).1 = false ∧
    (temp_file body).2 = ((body false).2).mapError Sum.inl := by
  unfold temp_file tempFileCleanup osRemove
  rcases hb : body false with ⟨fs, r⟩
  cases fs <;> simp

/-! ## Command Execution Engine: `exec_simple`
    (src/deployment/remote_executor.py, lines 10-123)

The paramiko channel is modelled as a deterministic schedule per stream:
a list of `(arrival tick, chunk)` pairs plus the tick at which the
end-of-stream marker (a zero-length read) becomes observable, and an
optional tick at which `exit_status_ready()` becomes true (`none` = the
command never signals completion).  One iteration of either polling loop
advances time by one tick; the `time.sleep(0.1)` back-off and the local
log-file mirroring do not affect the captured data and are dropped.
`recv` is modelled at chunk granularity (the 4096-byte cap only splits
chunks).  As in the source, a stream is polled only while not yet marked
closed, and a zero-length read marks it closed. -/

structure StreamSched where
  chunks : List (Nat × List Nat)
  closeAt : Nat
deriving DecidableEq

structure ChanModel where
  stdoutSched : StreamSched
  stderrSched : StreamSched
  exitAt : Option Nat
deriving DecidableEq

/-- Per-stream loop state: chunks not yet received, the closed flag, and
the bytes written to the capture buffer so far. -/
structure RState where
  pend : List (Nat × List Nat)
  closed : Bool
  buf : List Nat
deriving DecidableEq

/-- One `if not closed and chan.recv_ready(): ...` block of the loop body:
if data has arrived, receive one chunk and append it to the buffer; a
zero-length read marks the stream closed. -/
def readOne (closeAt t : Nat) (r : RState) : RState :=
  if r.closed then r
  else
    match r.pend with
    | (a, d) :: rest =>
      if a ≤ t then
        if d = [] then { pend := rest, closed := true, buf := r.buf }
        else { pend := rest, closed := false, buf := r.buf ++ d }
      else r
    | [] => if closeAt ≤ t then { pend := [], closed := true, buf := r.buf } else r

structure ExecSt where
  t : Nat
  so : RState
  se : RState
deriving DecidableEq

/-- One iteration of either polling loop body: poll stdout, poll stderr,
time advances one tick. -/
def stepRead (ch : ChanModel) (s : ExecSt) : ExecSt :=
  { t := s.t + 1
    so := readOne ch.stdoutSched.closeAt s.t s.so
    se := readOne ch.stderrSched.closeAt s.t s.se }

def exitReady (ch : ChanModel) (t : Nat) : Bool :=
  match ch.exitAt with
  | some T => decide (T ≤ t)
  | none => false

/-- The first loop: `while not chan.exit_status_ready(): ...` (fuel makes
the possibly diverging loop a total function; `none` = the loop has not
terminated within `fuel` iterations). -/
def phase1 (ch : ChanModel) : Nat → ExecSt → Option ExecSt
  | 0, _ => none
  | fuel + 1, s =>
    if exitReady ch s.t then some s else phase1 ch fuel (stepRead ch s)

/-- The second loop: `while not stdout_closed or not stderr_closed: ...`,
draining both streams to their end-of-stream markers. -/
def phase2 (ch : ChanModel) : Nat → ExecSt → Option ExecSt
  | 0, _ => none
  | fuel + 1, s =>
    if s.so.closed && s.se.closed then some s
    else phase2 ch fuel (stepRead ch s)

def initSt (ch : ChanModel) : ExecSt :=
  ⟨0, ⟨ch.stdoutSched.chunks, false, []⟩, ⟨ch.stderrSched.chunks, false, []⟩⟩

/-- `exec_simple`: run the bounded-wait loop until exit status is ready,
then the drain loop until both streams are closed, and return the
accumulated stdout and stderr bytes. -/
def exec_simple (ch : ChanModel) (fuel : Nat) : Option (List Nat × List Nat) :=
  match phase1 ch fuel (initSt ch) with
  | none => none
  | some s1 =>
    match phase2 ch fuel s1 with
    | none => none
    | some s2 => some (s2.so.buf, s2.se.buf)

/-- All bytes the schedule ever delivers on one stream. -/
def streamTotal (sc : StreamSched) : List Nat := (sc.chunks.map Prod.snd).flatten

/-- Loop invariant for one stream: the not-yet-received chunks are a
suffix of the schedule, the buffer plus the pending data equals the whole
scheduled data, and a closed stream has nothing pending. -/
structure SInv (sc : StreamSched) (r : RState) : Prop where
  suffix : r.pend <:+ sc.chunks
  total : r.buf ++ (r.pend.map Prod.snd).flatten = streamTotal sc
  closedEmpty : r.closed = true → r.pend = []

/-- Remaining polling work for one stream: pending chunks plus the final
zero-length read, or nothing once closed. -/
def needR (r : RState) : Nat := if r.closed then 0 else r.pend.length + 1

theorem sinv_init (sc : StreamSched) : SInv sc ⟨sc.chunks, false, []⟩ :=
  ⟨List.suffix_refl _, by simp [streamTotal], by simp⟩

theorem readOne_preserves {sc : StreamSched} {r : RState} {t : Nat}
    (hne : ∀ c ∈ sc.chunks, c.2 ≠ []) (h : SInv sc r) :
    SInv sc (readOne sc.closeAt t r) := by
  obtain ⟨hsuf, htot, hcl⟩ := h
  unfold readOne
  by_cases hc : r.closed
  · simpa [hc] using ⟨hsuf, htot, hcl⟩
  · rcases hp : r.pend with _ | ⟨⟨a, d⟩, rest⟩
    · by_cases hca : sc.closeAt ≤ t
      · simp only [hc, hca, if_true, if_false, Bool.false_eq_true]
        exact ⟨⟨sc.chunks, by simp⟩, by simpa [hp] using htot, fun _ => rfl⟩
      · simp only [hc, hca, if_false, Bool.false_eq_true]
        exact ⟨hsuf, htot, hcl⟩
    · have hsufc : (a, d) :: rest <:+ sc.chunks := hp ▸ hsuf
      have hd : d ≠ [] := hne (a, d) (hsufc.subset (by simp))
      have hsuf' : rest <:+ sc.chunks :=
        (List.suffix_cons (a, d) rest).trans hsufc
      by_cases ha : a ≤ t
      · simp only [hc, ha, hd, if_true, if_false, Bool.false_eq_true]
        refine ⟨hsuf', ?_, by simp⟩
        simpa [hp, List.append_assoc] using htot
      · simp only [hc, ha, if_false, Bool.false_eq_true]
        exact ⟨hsuf, htot, hcl⟩

theorem readOne_need_le (closeAt t : Nat) (r : RState) :
    needR (readOne closeAt t r) ≤ needR r := by
  unfold readOne
  by_cases hc : r.closed
  · simp [hc]
  · rcases hp : r.pend with _ | ⟨⟨a, d⟩, rest⟩
    · by_cases hca : closeAt ≤ t <;> simp [needR, hc, hca, hp]
    · by_cases ha : a ≤ t
      · by_cases hd : d = [] <;> simp [needR, hc, ha, hd, hp]
      · simp [needR, hc, ha, hp]

theorem readOne_need_lt {closeAt t : Nat} {r : RState}
    (hc : r.closed = false) (hca : closeAt ≤ t)
    (harr : ∀ c ∈ r.pend, c.1 ≤ t) :
    needR (readOne closeAt t r) < needR r := by
  unfold readOne
  rcases hp : r.pend with _ | ⟨⟨a, d⟩, rest⟩
  · simp [needR, hc, hca, hp]
  · have ha : a ≤ t := harr (a, d) (by rw [hp]; simp)
    by_cases hd : d = [] <;> simp [needR, hc, ha, hd, hp]

theorem readOne_closed_id {closeAt t : Nat} {r : RState}
    (hc : r.closed = true) : readOne closeAt t r = r := by
  simp [readOne, hc]

theorem phase1_spec (ch : ChanModel) (T : Nat) (hT : ch.exitAt = some T)
    (hne1 : ∀ c ∈ ch.stdoutSched.chunks, c.2 ≠ [])
    (hne2 : ∀ c ∈ ch.stderrSched.chunks, c.2 ≠ []) :
    ∀ fuel s, SInv ch.stdoutSched s.so → SInv ch.stderrSched s.se →
      max s.t T < s.t + fuel →
      ∃ s', phase1 ch fuel s = some s' ∧ s'.t = max s.t T ∧
        SInv ch.stdoutSched s'.so ∧ SInv ch.stderrSched s'.se ∧
        needR s'.so ≤ needR s.so ∧ needR s'.se ≤ needR s.se := by
  intro fuel
  induction fuel with
  | zero =>
    intro s _ _ hf
    have : s.t ≤ max s.t T := Nat.le_max_left _ _
    omega
  | succ n ih =>
    intro s h1 h2 hf
    by_cases hr : T ≤ s.t
    · refine ⟨s, ?_, ?_, h1, h2, Nat.le_refl _, Nat.le_refl _⟩
      · simp [phase1, exitReady, hT, hr]
      · omega
    · have hstep : phase1 ch (n + 1) s = phase1 ch n (stepRead ch s) := by
        simp [phase1, exitReady, hT, hr]
      have h1' : SInv ch.stdoutSched (stepRead ch s).so := readOne_preserves hne1 h1
      have h2' : SInv ch.stderrSched (stepRead ch s).se := readOne_preserves hne2 h2
      have hts : (stepRead ch s).t = s.t + 1 := rfl
      obtain ⟨s', hp, htm, hs1, hs2, hn1, hn2⟩ :=
        ih (stepRead ch s) h1' h2' (by rw [hts]; omega)
      refine ⟨s', by rw [hstep]; exact hp, by rw [htm, hts]; omega, hs1, hs2, ?_, ?_⟩
      · exact Nat.le_trans hn1 (readOne_need_le _ _ _)
      · exact Nat.le_trans hn2 (readOne_need_le _ _ _)

/-- Termination measure for the drain loop, for a time bound `A` past all
arrivals, stream closes and the exit tick. -/
def execMu (A : Nat) (s : ExecSt) : Nat :=
  (A + 1 - s.t) + needR s.so + needR s.se

theorem phase2_spec (ch : ChanModel) (A : Nat)
    (hne1 : ∀ c ∈ ch.stdoutSched.chunks, c.2 ≠ [])
    (hne2 : ∀ c ∈ ch.stderrSched.chunks, c.2 ≠ [])
    (harr1 : ∀ c ∈ ch.stdoutSched.chunks, c.1 ≤ A)
    (harr2 : ∀ c ∈ ch.stderrSched.chunks, c.1 ≤ A)
    (hca1 : ch.stdoutSched.closeAt ≤ A) (hca2 : ch.stderrSched.closeAt ≤ A) :
    ∀ fuel s, SInv ch.stdoutSched s.so → SInv ch.stderrSched s.se →
      execMu A s < fuel →
      ∃ s', phase2 ch fuel s = some s' ∧ s'.so.closed = true ∧
        s'.se.closed = true ∧ SInv ch.stdoutSched s'.so ∧
        SInv ch.stderrSched s'.se := by
  intro fuel
  induction fuel with
  | zero => intro s _ _ hf; omega
  | succ n ih =>
    intro s h1 h2 hf
    by_cases hdone : s.so.closed = true ∧ s.se.closed = true
    · exact ⟨s, by simp [phase2, hdone.1, hdone.2], hdone.1, hdone.2, h1, h2⟩
    · have hcond : (s.so.closed && s.se.closed) = false := by
        rcases Bool.eq_false_or_eq_true s.so.closed with hx | hx
        · rcases Bool.eq_false_or_eq_true s.se.closed with hy | hy
          · exact absurd ⟨hx, hy⟩ hdone
          · simp [hy]
        · simp [hx]
      have hstep : phase2 ch (n + 1) s = phase2 ch n (stepRead ch s) := by
        simp [phase2, hcond]
      have h1' : SInv ch.stdoutSched (stepRead ch s).so := readOne_preserves hne1 h1
      have h2' : SInv ch.stderrSched (stepRead ch s).se := readOne_preserves hne2 h2
      have hle1 : needR (stepRead ch s).so ≤ needR s.so := readOne_need_le _ _ _
      have hle2 : needR (stepRead ch s).se ≤ needR s.se := readOne_need_le _ _ _
      have hts : (stepRead ch s).t = s.t + 1 := rfl
      have hdec : execMu A (stepRead ch s) < execMu A s := by
        by_cases htA : s.t ≤ A
        · unfold execMu
          rw [hts]
          omega
        · have hopen : s.so.closed = false ∨ s.se.closed = false := by
            rcases Bool.eq_false_or_eq_true s.so.closed with hx | hx
            · rcases Bool.eq_false_or_eq_true s.se.closed with hy | hy
              · exact absurd ⟨hx, hy⟩ hdone
              · exact Or.inr hy
            · exact Or.inl hx
          rcases hopen with hx | hx
          · have hlt1 : needR (stepRead ch s).so < needR s.so := by
              apply readOne_need_lt hx (by omega)
              intro c hcmem
              exact Nat.le_trans (harr1 c (h1.suffix.subset hcmem)) (by omega)
            unfold execMu
            rw [hts]
            omega
          · have hlt2 : needR (stepRead ch s).se < needR s.se := by
              apply readOne_need_lt hx (by omega)
              intro c hcmem
              exact Nat.le_trans (harr2 c (h2.suffix.subset hcmem)) (by omega)
            unfold execMu
            rw [hts]
            omega
      obtain ⟨s', hp, hc1, hc2, hs1, hs2⟩ := ih (stepRead ch s) h1' h2' (by omega)
      exact ⟨s', by rw [hstep]; exact hp, hc1, hc2, hs1, hs2⟩

theorem natsMax_base (l : List Nat) (b : Nat) : b ≤ l.foldr max b := by
  induction l with
  | nil => exact Nat.le_refl _
  | cons x xs ih => exact Nat.le_trans ih (Nat.le_max_right _ _)

theorem natsMax_mem {l : List Nat} {x : Nat} (b : Nat) (h : x ∈ l) :
    x ≤ l.foldr max b := by
  induction l with
  | nil => cases h
  | cons y ys ih =>
    rcases List.mem_cons.mp h with rfl | h2
    · exact Nat.le_max_left _ _
    · exact Nat.le_trans (ih h2) (Nat.le_max_right _ _)

/-- An upper bound on every tick named by the channel schedule. -/
def maxTime (ch : ChanModel) : Nat :=
  max (ch.exitAt.getD 0)
    (max ((ch.stdoutSched.chunks.map Prod.fst).foldr max ch.stdoutSched.closeAt)
         ((ch.stderrSched.chunks.map Prod.fst).foldr max ch.stderrSched.closeAt))

/-- Enough loop iterations for `exec_simple` to reach its fixpoint. -/
def sufficientFuel (ch : ChanModel) : Nat :=
  maxTime ch + ch.stdoutSched.chunks.length + ch.stderrSched.chunks.length + 4

/-- C2.  For every command execution whose channel eventually signals
completion (at tick `T`) and whose streams deliver their chunks at
arbitrary ticks -- in particular after `T`, i.e. after exit status is
ready but before the end-of-stream marker -- `exec_simple` returns the
complete scheduled stdout and stderr bytes: the engine keeps reading both
streams after exit status is available until each has returned a
zero-length read, so late-arriving output is never lost. -/
theorem exec_simple_returns_all_output (ch : ChanModel) (T : Nat)
    (hT : ch.exitAt = some T)
    (hne1 : ∀ c ∈ ch.stdoutSched.chunks, c.2 ≠ [])
    (hne2 : ∀ c ∈ ch.stderrSched.chunks, c.2 ≠ [])
    (fuel : Nat) (hfuel : sufficientFuel ch ≤ fuel) :
    exec_simple ch fuel =
      some (streamTotal ch.stdoutSched, streamTotal ch.stderrSched) := by
  set A := maxTime ch with hA
  set b1 := (ch.stdoutSched.chunks.map Prod.fst).foldr max ch.stdoutSched.closeAt
    with hb1def
  set b2 := (ch.stderrSched.chunks.map Prod.fst).foldr max ch.stderrSched.closeAt
    with hb2def
  have hAval : A = max (ch.exitAt.getD 0) (max b1 b2) := rfl
  have hb1A : b1 ≤ A := by
    rw [hAval]
    exact Nat.le_trans (Nat.le_max_left b1 b2) (Nat.le_max_right _ _)
  have hb2A : b2 ≤ A := by
    rw [hAval]
    exact Nat.le_trans (Nat.le_max_right b1 b2) (Nat.le_max_right _ _)
  have hTA : T ≤ A := by
    rw [hAval]
    have : ch.exitAt.getD 0 = T := by rw [hT]; rfl
    rw [← this]
    exact Nat.le_max_left _ _
  have hca1 : ch.stdoutSched.closeAt ≤ A :=
    Nat.le_trans (natsMax_base _ _) hb1A
  have hca2 : ch.stderrSched.closeAt ≤ A :=
    Nat.le_trans (natsMax_base _ _) hb2A
  have harr1 : ∀ c ∈ ch.stdoutSched.chunks, c.1 ≤ A := by
    intro c hc
    exact Nat.le_trans (natsMax_mem _ (List.mem_map_of_mem Prod.fst hc)) hb1A
  have harr2 : ∀ c ∈ ch.stderrSched.chunks, c.1 ≤ A := by
    intro c hc
    exact Nat.le_trans (natsMax_mem _ (List.mem_map_of_mem Prod.fst hc)) hb2A
  have hFval : sufficientFuel ch =
      A + ch.stdoutSched.chunks.length + ch.stderrSched.chunks.length + 4 := rfl
  have hinit1 : SInv ch.stdoutSched (initSt ch).so := sinv_init _
  have hinit2 : SInv ch.stderrSched (initSt ch).se := sinv_init _
  have hneed1 : needR (initSt ch).so = ch.stdoutSched.chunks.length + 1 := by
    simp [initSt, needR]
  have hneed2 : needR (initSt ch).se = ch.stderrSched.chunks.length + 1 := by
    simp [initSt, needR]
  have ht0 : (initSt ch).t = 0 := rfl
  obtain ⟨s1, hp1, ht1, hs11, hs12, hn1, hn2⟩ :=
    phase1_spec ch T hT hne1 hne2 fuel (initSt ch) hinit1 hinit2 (by omega)
  have ht1' : s1.t = T := by rw [ht1, ht0]; omega
  have hmu : execMu A s1 < fuel := by
    unfold execMu
    rw [ht1']
    omega
  obtain ⟨s2, hp2, hc1, hc2, hs21, hs22⟩ :=
    phase2_spec ch A hne1 hne2 harr1 harr2 hca1 hca2 fuel s1 hs11 hs12 hmu
  have hpend1 : s2.so.pend = [] := hs21.closedEmpty hc1
  have hpend2 : s2.se.pend = [] := hs22.closedEmpty hc2
  have hbuf1 : s2.so.buf = streamTotal ch.stdoutSched := by
    have h := hs21.total
    rw [hpend1] at h
    simpa using h
  have hbuf2 : s2.se.buf = streamTotal ch.stderrSched := by
    have h := hs22.total
    rw [hpend2] at h
    simpa using h
  unfold exec_simple
  rw [hp1]
  simp [hp2, hbuf1, hbuf2]

theorem exec_simple_returns_all_output_witness :
    exec_simple ⟨⟨[(0, [72]), (5, [33])], 6⟩, ⟨[], 0⟩, some 2⟩ 12 =
      some ([72, 33], []) := by
  have h := exec_simple_returns_all_output
    ⟨⟨[(0, [72]), (5, [33])], 6⟩, ⟨[], 0⟩, some 2⟩ 2
    rfl (by decide) (by decide) 12 (by decide)
  simpa [streamTotal] using h

theorem phase1_none_of_no_exit (ch : ChanModel) (h : ch.exitAt = none) :
    ∀ fuel s, phase1 ch fuel s = none := by
  intro fuel
  induction fuel with
  | zero => intro s; rfl
  | succ n ih =>
    intro s
    have hx : exitReady ch s.t = false := by simp [exitReady, h]
    simp [phase1, hx, ih]

/-- C5.  The claim says `exec_simple` fails with a timeout error once the
per-command timeout elapses without the command signalling completion.
The source has no such check: `cmd_timeout` is only installed via
`chan.settimeout`, which bounds blocking `recv` calls, but `recv` is only
ever invoked after `recv_ready()` reports data, so it never blocks, and
the polling loop compares no elapsed time against `cmd_timeout`.  On a
command that never signals completion the first loop therefore never
exits, whatever iteration budget it is given: `exec_simple` diverges
(returns no result at every fuel) instead of raising within the
timeout. -/
theorem exec_simple_no_deadline (ch : ChanModel) (h : ch.exitAt = none)
    (fuel : Nat) : exec_simple ch fuel = none := by
  unfold exec_simple
  rw [phase1_none_of_no_exit ch h fuel (initSt ch)]

theorem exec_simple_no_deadline_witness :
    exec_simple ⟨⟨[], 0⟩, ⟨[], 0⟩, none⟩ 36000 = none :=
  exec_simple_no_deadline ⟨⟨[], 0⟩, ⟨[], 0⟩, none⟩ rfl 36000

/-! ## `write_echo_commands_for_file`
    (src/deployment/remote_executor.py, lines 150-169)

For each line of the local file the source emits

  cleaned_line = line.rstrip().replace(chr(92), chr(92)*2).replace(chr(39), chr(92)+chr(39))
  echo $deco >> echo_file_path        -- where deco is the ANSI-C
                                      -- single-quoted cleaned_line

followed by a chmod +x, a progress echo and a du -sh.  Lines are modelled
as lists of characters (as produced by Python file iteration, so with no
interior newline; the line terminator itself is removed by `rstrip`).
The emitted commands are modelled structurally rather than as raw shell
text, so that the remote-side interpretation needs no string parsing. -/

def backslashChar : Char := Char.ofNat 92

def quoteChar : Char := Char.ofNat 39

def nlChar : Char := Char.ofNat 10

/-- Python `str.isspace()` whitespace, the set `str.rstrip()` strips
with no argument: ASCII whitespace U+0009-U+000D and U+0020, the
separator controls U+001C-U+001F, next line U+0085, no-break space
U+00A0, Ogham space mark U+1680, the space separators U+2000-U+200A,
line separator U+2028, paragraph separator U+2029, narrow no-break
space U+202F, medium mathematical space U+205F and ideographic space
U+3000. -/
def isPySpace (c : Char) : Bool :=
  (9 ≤ c.toNat && c.toNat ≤ 13) || c.toNat = 32 ||
  (28 ≤ c.toNat && c.toNat ≤ 31) || c.toNat = 133 || c.toNat = 160 ||
  c.toNat = 5760 || (8192 ≤ c.toNat && c.toNat ≤ 8202) ||
  c.toNat = 8232 || c.toNat = 8233 || c.toNat = 8239 || c.toNat = 8287 ||
  c.toNat = 12288

/-- Python `str.rstrip()`: drop trailing whitespace. -/
def rstrip (l : List Char) : List Char :=
  (l.reverse.dropWhile isPySpace).reverse

/-- Python `str.replace(a, b)` for a single-character pattern. -/
def pyReplace (a : Char) (b : List Char) : List Char → List Char
  | [] => []
  | c :: rest => (if c = a then b else [c]) ++ pyReplace a b rest

/-- `line.rstrip().replace(backslash, 2 backslashes).replace(quote,
backslash quote)` from the source. -/
def cleanedLine (line : List Char) : List Char :=
  pyReplace quoteChar [backslashChar, quoteChar]
    (pyReplace backslashChar [backslashChar, backslashChar] (rstrip line))

/-- The remote commands the transcription emits, modelled structurally:
`echoAppend payload path` stands for the emitted text
`echo` + ANSI-C-quoted payload + `>>` + path. -/
inductive RemoteCmd
  | echoAppend (payload : List Char) (path : String)
  | chmodX (path : String)
  | echoFinished (path : String)
  | duSh (path : String)
  | mkdirP (path : String)
  | cdDir (path : String)
  | bashRun (file : String)
deriving DecidableEq

/-- `write_echo_commands_for_file`: one escape-safe append-to-file echo
instruction per line, then `chmod +x`, a progress echo and a size
report. -/
def write_echo_commands_for_file (lines : List (List Char))
    (echo_file_path : String) : List RemoteCmd :=
  (lines.map fun line => RemoteCmd.echoAppend (cleanedLine line) echo_file_path)
    ++ [RemoteCmd.chmodX echo_file_path, RemoteCmd.echoFinished echo_file_path,
        RemoteCmd.duSh echo_file_path]

/-- Modelled from the spec: the remote shell's ANSI-C quoting, which is
external to the repository.  Inside an ANSI-C single-quoted word a
backslash escape decodes to one character (backslash, quote, double
quote, newline, tab, carriage return); an unknown escape is kept
verbatim. -/
def ansiEsc (c : Char) : List Char :=
  if c = backslashChar then [backslashChar]
  else if c = quoteChar then [quoteChar]
  else if c = '"' then ['"']
  else if c = 'n' then [Char.ofNat 10]
  else if c = 't' then [Char.ofNat 9]
  else if c = 'r' then [Char.ofNat 13]
  else [backslashChar, c]

/-- Modelled from the spec: decode the body of an ANSI-C single-quoted
word (a trailing lone backslash is kept). -/
def ansiCUnquote : List Char → List Char
  | [] => []
  | [c] => [c]
  | c :: d :: rest =>
    if c = backslashChar then ansiEsc d ++ ansiCUnquote rest
    else c :: ansiCUnquote (d :: rest)

/-- Modelled from the spec: the remote file produced by executing the
emitted commands -- each `echoAppend` for this path appends its decoded
payload plus a newline; every other command leaves the file alone. -/
def runRemoteFile (cmds : List RemoteCmd) (path : String) : List Char :=
  cmds.foldl
    (fun acc c =>
      match c with
      | RemoteCmd.echoAppend p q =>
        if q = path then acc ++ ansiCUnquote p ++ [nlChar] else acc
      | _ => acc)
    []

/-- Modelled from the spec: reading the remote file back as lines (the
final newline terminates the last line rather than opening an empty
one). -/
def splitLinesAux : List Char → List Char → List (List Char)
  | [], cur => if cur.isEmpty then [] else [cur]
  | c :: rest, cur =>
    if c = nlChar then cur :: splitLinesAux rest []
    else splitLinesAux rest (cur ++ [c])

def splitLines (content : List Char) : List (List Char) :=
  splitLinesAux content []

theorem pyReplace_append (a : Char) (b l1 l2 : List Char) :
    pyReplace a b (l1 ++ l2) = pyReplace a b l1 ++ pyReplace a b l2 := by
  induction l1 with
  | nil => rfl
  | cons c rest ih => simp [pyReplace, ih]

theorem ansiCUnquote_cons_nb {c : Char} (hc : c ≠ backslashChar)
    (l : List Char) : ansiCUnquote (c :: l) = c :: ansiCUnquote l := by
  cases l with
  | nil => rfl
  | cons d rest => simp [ansiCUnquote, hc]

theorem ansiCUnquote_bs (d : Char) (l : List Char) :
    ansiCUnquote (backslashChar :: d :: l) = ansiEsc d ++ ansiCUnquote l := by
  simp [ansiCUnquote]

theorem bs_ne_quote : backslashChar ≠ quoteChar := by decide

/-- The per-character escape (double each backslash, then prefix each
quote with a backslash) is inverted exactly by ANSI-C unquoting. -/
theorem unquote_esc2 (l : List Char) :
    ansiCUnquote (pyReplace quoteChar [backslashChar, quoteChar]
      (pyReplace backslashChar [backslashChar, backslashChar] l)) = l := by
  induction l with
  | nil => rfl
  | cons c rest ih =>
    by_cases hcb : c = backslashChar
    · subst hcb
      have h1 : pyReplace backslashChar [backslashChar, backslashChar]
          (backslashChar :: rest) =
          [backslashChar, backslashChar] ++
            pyReplace backslashChar [backslashChar, backslashChar] rest := by
        simp [pyReplace]
      rw [h1, pyReplace_append]
      have h2 : pyReplace quoteChar [backslashChar, quoteChar]
          [backslashChar, backslashChar] = [backslashChar, backslashChar] := by
        simp [pyReplace, bs_ne_quote]
      rw [h2]
      rw [List.cons_append, List.singleton_append, ansiCUnquote_bs]
      have h3 : ansiEsc backslashChar = [backslashChar] := by
        simp [ansiEsc]
      rw [h3, ih]
      rfl
    · by_cases hcq : c = quoteChar
      · subst hcq
        have h1 : pyReplace backslashChar [backslashChar, backslashChar]
            (quoteChar :: rest) =
            quoteChar :: pyReplace backslashChar [backslashChar, backslashChar]
              rest := by
          simp [pyReplace, Ne.symm bs_ne_quote]
        rw [h1]
        have h2 : pyReplace quoteChar [backslashChar, quoteChar]
            (quoteChar :: pyReplace backslashChar [backslashChar, backslashChar]
              rest) =
            [backslashChar, quoteChar] ++
              pyReplace quoteChar [backslashChar, quoteChar]
                (pyReplace backslashChar [backslashChar, backslashChar] rest) := by
          simp [pyReplace]
        rw [h2, List.cons_append, List.singleton_append, ansiCUnquote_bs]
        have h3 : ansiEsc quoteChar = [quoteChar] := by
          simp [ansiEsc, Ne.symm bs_ne_quote]
        rw [h3, ih]
        rfl
      · have h1 : pyReplace backslashChar [backslashChar, backslashChar]
            (c :: rest) =
            c :: pyReplace backslashChar [backslashChar, backslashChar] rest := by
          simp [pyReplace, hcb]
        have h2 : pyReplace quoteChar [backslashChar, quoteChar]
            (c :: pyReplace backslashChar [backslashChar, backslashChar] rest) =
            c :: pyReplace quoteChar [backslashChar, quoteChar]
              (pyReplace backslashChar [backslashChar, backslashChar] rest) := by
          simp [pyReplace, hcq]
        rw [h1, h2, ansiCUnquote_cons_nb hcb, ih]

/-- Content one remote command appends to the file at `path`. -/
def cmdAppend (path : String) (c : RemoteCmd) : List Char :=
  match c with
  | RemoteCmd.echoAppend p q =>
    if q = path then ansiCUnquote p ++ [nlChar] else []
  | _ => []

theorem runRemoteFile_eq_flatten (path : String) :
    ∀ (cmds : List RemoteCmd) (acc : List Char),
    cmds.foldl
      (fun acc c =>
        match c with
        | RemoteCmd.echoAppend p q =>
          if q = path then acc ++ ansiCUnquote p ++ [nlChar] else acc
        | _ => acc)
      acc = acc ++ (cmds.map (cmdAppend path)).flatten := by
  intro cmds
  induction cmds with
  | nil => intro acc; simp
  | cons c rest ih =>
    intro acc
    have hstep : (match c with
        | RemoteCmd.echoAppend p q =>
          if q = path then acc ++ ansiCUnquote p ++ [nlChar] else acc
        | _ => acc) = acc ++ cmdAppend path c := by
      cases c with
      | echoAppend p q =>
        by_cases hq : q = path <;> simp [cmdAppend, hq]
      | chmodX q => simp [cmdAppend]
      | echoFinished q => simp [cmdAppend]
      | duSh q => simp [cmdAppend]
      | mkdirP q => simp [cmdAppend]
      | cdDir q => simp [cmdAppend]
      | bashRun q => simp [cmdAppend]
    rw [List.foldl_cons, hstep, ih]
    simp

theorem runRemoteFile_write_echo (lines : List (List Char)) (path : String) :
    runRemoteFile (write_echo_commands_for_file lines path) path =
      (lines.map (fun l => ansiCUnquote (cleanedLine l) ++ [nlChar])).flatten := by
  unfold runRemoteFile write_echo_commands_for_file
  rw [runRemoteFile_eq_flatten]
  simp [cmdAppend, Function.comp_def]

theorem splitLinesAux_line (l : List Char) (hnl : nlChar ∉ l) :
    ∀ (cur rest : List Char),
    splitLinesAux (l ++ nlChar :: rest) cur = (cur ++ l) :: splitLinesAux rest [] := by
  induction l with
  | nil => intro cur rest; simp [splitLinesAux]
  | cons c t ih =>
    intro cur rest
    have hc : c ≠ nlChar := fun h => hnl (by rw [h]; simp)
    have ht : nlChar ∉ t := fun h => hnl (by simp [h])
    rw [List.cons_append]
    show splitLinesAux (c :: (t ++ nlChar :: rest)) cur = _
    rw [splitLinesAux, if_neg hc, ih ht]
    simp

theorem split_join (lines : List (List Char))
    (h : ∀ l ∈ lines, nlChar ∉ l) :
    splitLines ((lines.map (fun l => l ++ [nlChar])).flatten) = lines := by
  induction lines with
  | nil => rfl
  | cons l rest ih =>
    have hl : nlChar ∉ l := h l (by simp)
    have hrest : ∀ x ∈ rest, nlChar ∉ x := fun x hx => h x (by simp [hx])
    unfold splitLines
    rw [List.map_cons, List.flatten_cons]
    have hassoc : (l ++ [nlChar]) ++ (rest.map (fun l => l ++ [nlChar])).flatten =
        l ++ nlChar :: (rest.map (fun l => l ++ [nlChar])).flatten := by
      simp
    rw [hassoc, splitLinesAux_line l hl]
    rw [List.nil_append]
    exact congrArg (l :: ·) (ih hrest)

/-- C6, counterexample.  The claim says the quoting transform
round-trips losslessly for every line of text, but `line.rstrip()`
deletes trailing whitespace: the one-line file whose line is the three
characters h, i, space reads back as just h, i. -/
theorem write_echo_roundtrip_counterexample :
    splitLines (runRemoteFile
        (write_echo_commands_for_file [['h', 'i', ' ']] "f") "f") =
      [['h', 'i']] ∧
    splitLines (runRemoteFile
        (write_echo_commands_for_file [['h', 'i', ' ']] "f") "f") ≠
      [['h', 'i', ' ']] := by
  constructor
  · decide
  · decide

/-- C6, amended.  For every file whose lines carry no trailing
whitespace (arbitrary backslashes, quotes and other interior characters
allowed; a line, as produced by Python file iteration, contains no
newline), the transform emitted by `write_echo_commands_for_file`
round-trips losslessly: executing the emitted append-to-file echo
commands and reading the remote file back yields the original lines
unchanged.  Lines with trailing whitespace lose it to `rstrip`. -/
theorem write_echo_roundtrip_no_trailing_ws (lines : List (List Char))
    (path : String)
    (h : ∀ l ∈ lines, rstrip l = l ∧ nlChar ∉ l) :
    splitLines (runRemoteFile (write_echo_commands_for_file lines path) path) =
      lines := by
  rw [runRemoteFile_write_echo]
  have hmap : lines.map (fun l => ansiCUnquote (cleanedLine l) ++ [nlChar]) =
      lines.map (fun l => l ++ [nlChar]) := by
    apply List.map_congr_left
    intro l hl
    have h1 : cleanedLine l = pyReplace quoteChar [backslashChar, quoteChar]
        (pyReplace backslashChar [backslashChar, backslashChar] l) := by
      unfold cleanedLine
      rw [(h l hl).1]
    rw [h1, unquote_esc2]
  rw [hmap]
  exact split_join lines (fun l hl => (h l hl).2)

theorem write_echo_roundtrip_no_trailing_ws_witness :
    splitLines (runRemoteFile (write_echo_commands_for_file
        [['e', 'c', 'h', 'o', ' ', 'h', 'i'],
         ['i', 't', quoteChar, 's', ' ', 'h', 'e', 'r', 'e'],
         ['a', backslashChar, 'n', backslashChar, backslashChar, quoteChar]]
        "bootstrap/config.sh") "bootstrap/config.sh") =
      [['e', 'c', 'h', 'o', ' ', 'h', 'i'],
       ['i', 't', quoteChar, 's', ' ', 'h', 'e', 'r', 'e'],
       ['a', backslashChar, 'n', backslashChar, backslashChar, quoteChar]] :=
  write_echo_roundtrip_no_trailing_ws _ "bootstrap/config.sh" (by decide)

/-! ## Build Session State Machine: `trigger_build`
    (src/deployment/trigger_build.py, lines 69-308 and 343-385)

External collaborator operations are recorded as events.  Acquiring the
slack handle (`itgs.slack()`) and the boto session object perform no
collaborator operation and record nothing.  Slack message texts are
abbreviated.  Remote provisioning calls are modelled as succeeding with
environment-supplied data; the gated waits (instance start, script
execution, readiness signal, instance termination during cleanup) can
time out, driven by the environment.  Polling loops model elapsed
wall-clock time as five seconds per completed iteration, matching the
`await asyncio.sleep(5)` per iteration, so the 600 second deadlines
allow 120 completed polls. -/

inductive ExtOp
  | slackSend (msg : String)
  | createKeyPair
  | runInstances
  | describeInstances
  | terminateInstances
  | deleteKeyPair
  | pubsubSubscribe
  | sshConnect
  | blobUpload (key : String)
  | redisPublish (channel : String)
deriving DecidableEq

def terminateTimeoutMsg : String := "Timed out waiting for instance to terminate"

def startTimeoutMsg : String := "Timed out waiting for instance to start"

def scriptTimeoutMsg : String := "TimeoutError: script did not complete within 30 minutes"

def buildReadyTimeoutMsg : String := "TimeoutError: build_ready not published within 5 minutes"

/-- `status in ("non-existant", "terminated")` from `_cleanup_instance`. -/
def isTerminalStatus (status : String) : Bool :=
  status = "non-existant" || status = "terminated"

/-- The polling loop of `_cleanup_instance` (lines 170-192): while the
status is not terminal, raise once more than 600 seconds have elapsed,
otherwise sleep five seconds, describe the instance and report a status
change.  `k` counts completed iterations (5 seconds each); the fuel
`122` is enough for the deadline check at `k = 121` to fire first, so
the fuel-exhaustion branch (same error) is unreachable. -/
def cleanupInstancePoll (describe : Nat → String) :
    Nat → Nat → String → List ExtOp × Except String Unit
  | 0, _, _ => ([], Except.error terminateTimeoutMsg)
  | fuel + 1, k, status =>
    if isTerminalStatus status then ([], Except.ok ())
    else if 5 * k > 600 then ([], Except.error terminateTimeoutMsg)
    else
      let newStatus := describe k
      let evs := if newStatus ≠ status
        then [ExtOp.describeInstances, ExtOp.slackSend "build server status"]
        else [ExtOp.describeInstances]
      let r := cleanupInstancePoll describe fuel (k + 1) newStatus
      (evs ++ r.1, r.2)

/-- `_cleanup_instance` (lines 159-194): issue the terminate request,
report it, then poll until the status is terminal or the deadline
expires.  `status0` is the status the terminate call returned. -/
def cleanup_instance (describe : Nat → String) (status0 : String) :
    List ExtOp × Except String Unit :=
  let r := cleanupInstancePoll describe 122 0 status0
  ([ExtOp.terminateInstances, ExtOp.slackSend "terminated build server"] ++ r.1, r.2)

/-- `_cleanup_instance` as a registered cleanup function. -/
def cleanupInstanceF (describe : Nat → String) (status0 : String) :
    List ExtOp × Option String :=
  let r := cleanup_instance describe status0
  (r.1, match r.2 with | Except.ok _ => none | Except.error e => some e)

/-- `_cleanup_key` (lines 114-121) as a registered cleanup function. -/
def cleanupKeyF : List ExtOp × Option String :=
  ([ExtOp.deleteKeyPair, ExtOp.slackSend "deleted build key pair"], none)

/-- `cancel_build_ready_task` (lines 237-240) as a registered cleanup
function: cancelling the background task touches no collaborator and
cannot fail. -/
def cancelBuildReadyF : List ExtOp × Option String := ([], none)

/-- The wait-for-running loop (lines 196-211): 600 second deadline,
five second polls, status-change reports. -/
def waitRunningLoop (describe : Nat → String) :
    Nat → Nat → String → List ExtOp × Except String Unit
  | 0, _, _ => ([], Except.error startTimeoutMsg)
  | fuel + 1, k, status =>
    if status = "running" then ([], Except.ok ())
    else if 5 * k > 600 then ([], Except.error startTimeoutMsg)
    else
      let newStatus := describe k
      let evs := if newStatus ≠ status
        then [ExtOp.describeInstances, ExtOp.slackSend "build server status"]
        else [ExtOp.describeInstances]
      let r := waitRunningLoop describe fuel (k + 1) newStatus
      (evs ++ r.1, r.2)

/-- Local inputs of script generation.  `buildFolderFiles` lists, in
walk order, the destination echo path and the lines of each file under
`scripts/build` (the `os.walk` traversal and path joining of
`write_echo_commands_for_folder` are abstracted to this
environment-supplied list). -/
structure LocalFiles where
  buildFolderFiles : List (String × List (List Char))
  configLines : List (List Char)
  repoLines : List (List Char)

/-- `write_echo_commands_for_folder` (remote_executor.py lines 126-147):
make the destination folder, then transcribe each contained file (the
per-subfolder mkdir commands are subsumed into the walk-order list). -/
def write_echo_commands_for_folder
    (files : List (String × List (List Char))) (echo_path : String) :
    List RemoteCmd :=
  RemoteCmd.mkdirP echo_path ::
    files.flatMap (fun f => write_echo_commands_for_file f.2 f.1)

/-- `generate_single_file_script` (trigger_build.py lines 332-340). -/
def generate_single_file_script (files : LocalFiles) : List RemoteCmd :=
  RemoteCmd.cdDir "/usr/local/src" ::
    (write_echo_commands_for_folder files.buildFolderFiles "bootstrap"
      ++ write_echo_commands_for_file files.configLines "bootstrap/config.sh"
      ++ write_echo_commands_for_file files.repoLines "bootstrap/repo.sh"
      ++ [RemoteCmd.cdDir "/usr/local/src/bootstrap", RemoteCmd.bashRun "main.sh"])

inductive BuildOutcome
  | completed
  | dryRunCompleted (script : List RemoteCmd)
  | failed (e : String)
deriving DecidableEq

/-- Environment driving one non-dry run. -/
structure BuildEnv where
  launchStatus : String
  describeRunning : Nat → String
  terminateStatus0 : String
  describeTerminate : Nat → String
  scriptInTime : Bool
  buildReadyInTime : Bool

/-- The non-dry-run body of `trigger_build` (lines 87-307): provision the
key pair and instance (registering their compensations), wait for
running, start the readiness wait (registering its cancellation),
connect and execute the script under the 1800 second bound, await the
readiness signal under the 300 second bound, store the logs, exit the
`cleanup_functions` scope (running every registered compensation), and
only then publish the downstream update. -/
def trigger_build_main (env : BuildEnv) (_script : List RemoteCmd) :
    List ExtOp × BuildOutcome :=
  let evKey := [ExtOp.createKeyPair, ExtOp.slackSend "generated build key pair"]
  let funcs1 := [cleanupKeyF]
  let evLaunch := [ExtOp.runInstances, ExtOp.slackSend "launched build server"]
  let funcs2 := funcs1 ++ [cleanupInstanceF env.describeTerminate env.terminateStatus0]
  let wr := waitRunningLoop env.describeRunning 122 0 env.launchStatus
  match wr.2 with
  | Except.error e =>
    let res := cleanup_functions_scope (evKey ++ evLaunch ++ wr.1) (some e) funcs2
    (res.events, BuildOutcome.failed (res.outcome.getD e))
  | Except.ok _ =>
    let funcs3 := funcs2 ++ [cancelBuildReadyF]
    let evExec := [ExtOp.pubsubSubscribe, ExtOp.sshConnect]
    if env.scriptInTime = false then
      let res := cleanup_functions_scope
        (evKey ++ evLaunch ++ wr.1 ++ evExec ++
          [ExtOp.slackSend "build timed out, script"])
        (some scriptTimeoutMsg) funcs3
      (res.events, BuildOutcome.failed (res.outcome.getD scriptTimeoutMsg))
    else if env.buildReadyInTime = false then
      let res := cleanup_functions_scope
        (evKey ++ evLaunch ++ wr.1 ++ evExec ++
          [ExtOp.slackSend "build timed out, build_ready"])
        (some buildReadyTimeoutMsg) funcs3
      (res.events, BuildOutcome.failed (res.outcome.getD buildReadyTimeoutMsg))
    else
      let evLogs := [ExtOp.slackSend "detected build ready",
        ExtOp.slackSend "storing build logs",
        ExtOp.blobUpload "builds/frontend-ssr/build-stdout.txt",
        ExtOp.blobUpload "builds/frontend-ssr/build-stderr.txt",
        ExtOp.slackSend "cleaning up ec2 artifacts"]
      let res := cleanup_functions_scope
        (evKey ++ evLaunch ++ wr.1 ++ evExec ++ evLogs) none funcs3
      match res.outcome with
      | some e => (res.events, BuildOutcome.failed e)
      | none =>
        (res.events ++ [ExtOp.slackSend "build complete, triggering update",
          ExtOp.redisPublish "updates:frontend-ssr-web:do_update"],
         BuildOutcome.completed)

/-- `trigger_build` (lines 69-85 and onward): render the script from
local inputs; in dry-run mode report it and return, otherwise run the
provisioning body. -/
def trigger_build (files : LocalFiles) (env : BuildEnv) (dry_run : Bool) :
    List ExtOp × BuildOutcome :=
  let single_file_script := generate_single_file_script files
  if dry_run then ([], BuildOutcome.dryRunCompleted single_file_script)
  else trigger_build_main env single_file_script

/-- C7.  In dry-run mode `trigger_build` renders the script from local
inputs (step 1), reports it in the terminal outcome, and returns before
touching any external collaborator: the event trace is empty -- no
credential creation, no instance launch, no shell connection, no blob
upload, no pub/sub subscribe or publish, and no notification send. -/
theorem trigger_build_dry_run_pure (files : LocalFiles) (env : BuildEnv) :
    trigger_build files env true =
      ([], BuildOutcome.dryRunCompleted (generate_single_file_script files)) :=
  rfl

theorem cleanupInstancePoll_timeout (describe : Nat → String)
    (hd : ∀ k, isTerminalStatus (describe k) = false) :
    ∀ fuel k status, isTerminalStatus status = false →
      (cleanupInstancePoll describe fuel k status).2 =
        Except.error terminateTimeoutMsg := by
  intro fuel
  induction fuel with
  | zero => intro k status hs; rfl
  | succ n ih =>
    intro k status hs
    by_cases hk : 5 * k > 600
    · simp [cleanupInstancePoll, hs, hk]
    · simp only [cleanupInstancePoll, hs, hk, Bool.false_eq_true, if_false]
      exact ih (k + 1) (describe k) (hd k)

theorem cleanupInstanceF_timeout (describe : Nat → String) (status0 : String)
    (h0 : isTerminalStatus status0 = false)
    (hd : ∀ k, isTerminalStatus (describe k) = false) :
    (cleanupInstanceF describe status0).2 = some terminateTimeoutMsg := by
  have hp := cleanupInstancePoll_timeout describe hd 122 0 status0 h0
  simp [cleanupInstanceF, cleanup_instance, hp]

/-- Outcome, executed order and reported errors when, of the three
registered cleanup functions of a successful run, only the middle one
(the instance termination) fails. -/
theorem scope_three_middle_fail {Ev E : Type} (f0 f1 f2 : List Ev × Option E)
    (m : E) (h0 : f0.2 = none) (h1 : f1.2 = some m) (h2 : f2.2 = none)
    (bodyEvents : List Ev) :
    (cleanup_functions_scope bodyEvents (none : Option E) [f0, f1, f2]).outcome
        = some m ∧
    (cleanup_functions_scope bodyEvents (none : Option E) [f0, f1, f2]).executed
        = [2, 1, 0] ∧
    (cleanup_functions_scope bodyEvents (none : Option E) [f0, f1, f2]).reported
        = [m] := by
  unfold cleanup_functions_scope
  rw [runCleanups_spec]
  have hr : (List.range ([f0, f1, f2] : List (List Ev × Option E)).length).reverse
      = [2, 1, 0] := rfl
  rw [hr]
  have e0 : cleanupErrAt [f0, f1, f2] 0 = none := by
    simp [cleanupErrAt, h0]
  have e1 : cleanupErrAt [f0, f1, f2] 1 = some m := by
    simp [cleanupErrAt, h1]
  have e2 : cleanupErrAt [f0, f1, f2] 2 = none := by
    simp [cleanupErrAt, h2]
  simp [List.filterMap, e0, e1, e2]

/-- C8, counterexample.  The claim says terminate-timeout expiry is
non-fatal: it does not become the failure propagated to the caller.  In
a run where everything else succeeded and the instance never reaches a
terminal state, `_cleanup_instance` raises the terminate-timeout
exception, and the `cleanup_functions` scope re-raises it to the caller
(the outcome is that failure, not a normal return). -/
theorem terminate_timeout_counterexample :
    (cleanup_functions_scope [] (none : Option String)
      [cleanupKeyF,
       cleanupInstanceF (fun _ => "shutting-down") "shutting-down",
       cancelBuildReadyF]).outcome = some terminateTimeoutMsg ∧
    (cleanup_functions_scope [] (none : Option String)
      [cleanupKeyF,
       cleanupInstanceF (fun _ => "shutting-down") "shutting-down",
       cancelBuildReadyF]).outcome ≠ none := by
  have hinst := cleanupInstanceF_timeout (fun _ => "shutting-down")
    "shutting-down" (by decide) (fun k => by simp [isTerminalStatus])
  have h := scope_three_middle_fail cleanupKeyF
    (cleanupInstanceF (fun _ => "shutting-down") "shutting-down")
    cancelBuildReadyF terminateTimeoutMsg rfl hinst rfl []
  exact ⟨h.1, by rw [h.1]; simp⟩

/-- C8, amended.  When the terminate request is issued but the instance
status never reaches a terminal state within the terminate-timeout, the
expiry is reported to the error-observation channel and does not prevent
the other compensations from running (all three execute, in reverse
order), but it is not non-fatal: as the last failing cleanup action its
exception is re-raised by the scope, so an otherwise-successful run ends
in `Failed` with the terminate-timeout as the propagated failure. -/
theorem terminate_timeout_propagates (files : LocalFiles) (env : BuildEnv)
    (hrun : env.launchStatus = "running")
    (hscript : env.scriptInTime = true) (hready : env.buildReadyInTime = true)
    (h0 : isTerminalStatus env.terminateStatus0 = false)
    (hd : ∀ k, isTerminalStatus (env.describeTerminate k) = false) :
    (trigger_build files env false).2 = BuildOutcome.failed terminateTimeoutMsg ∧
    ∀ bodyEvents : List ExtOp,
      (cleanup_functions_scope bodyEvents (none : Option String)
        [cleanupKeyF, cleanupInstanceF env.describeTerminate env.terminateStatus0,
         cancelBuildReadyF]).outcome = some terminateTimeoutMsg ∧
      (cleanup_functions_scope bodyEvents (none : Option String)
        [cleanupKeyF, cleanupInstanceF env.describeTerminate env.terminateStatus0,
         cancelBuildReadyF]).executed = [2, 1, 0] ∧
      (cleanup_functions_scope bodyEvents (none : Option String)
        [cleanupKeyF, cleanupInstanceF env.describeTerminate env.terminateStatus0,
         cancelBuildReadyF]).reported = [terminateTimeoutMsg] := by
  have hinst := cleanupInstanceF_timeout env.describeTerminate
    env.terminateStatus0 h0 hd
  have hsc := fun bodyEvents => scope_three_middle_fail cleanupKeyF
    (cleanupInstanceF env.describeTerminate env.terminateStatus0)
    cancelBuildReadyF terminateTimeoutMsg rfl hinst rfl bodyEvents
  refine ⟨?_, fun be => hsc be⟩
  have hwr : waitRunningLoop env.describeRunning 122 0 env.launchStatus
      = ([], Except.ok ()) := by
    rw [hrun]
    simp [waitRunningLoop]
  have hout : ∀ be : List ExtOp,
      (cleanup_functions_scope be (none : Option String)
        [cleanupKeyF, cleanupInstanceF env.describeTerminate env.terminateStatus0,
         cancelBuildReadyF]).outcome = some terminateTimeoutMsg :=
    fun be => (hsc be).1
  simp [trigger_build, trigger_build_main, hwr, hscript, hready, hout]

def envTimeoutWitness : BuildEnv :=
  { launchStatus := "running"
    describeRunning := fun _ => "running"
    terminateStatus0 := "shutting-down"
    describeTerminate := fun _ => "shutting-down"
    scriptInTime := true
    buildReadyInTime := true }

def filesWitness : LocalFiles := ⟨[], [], []⟩

theorem terminate_timeout_propagates_witness :
    (trigger_build filesWitness envTimeoutWitness false).2 =
      BuildOutcome.failed terminateTimeoutMsg :=
  (terminate_timeout_propagates filesWitness envTimeoutWitness rfl rfl rfl
    (by decide) (fun k => by simp [envTimeoutWitness, isTerminalStatus])).1

/-! ## `connect_and_execute` retry loop
    (src/deployment/trigger_build.py, lines 343-376)

The `for attempt in range(150)` loop: each attempt connects, uploads the
script and marks it executable; any exception from an attempt is caught,
and unless the attempt index is 149 the loop sleeps two seconds and
retries; at index 149 the exception is re-raised; the first attempt that
completes without exception breaks the loop and the script is executed.
`att i` is the outcome of attempt `i` (the whole connect-upload-chmod
block); the returned list records the two-second sleeps, the returned
value the index of the successful attempt or the propagated exception.
The remaining fuel `149 - i` substitutes for the `range` bound, so the
`i = 149` re-raise check of the source is mirrored both by the fuel-zero
case and by the explicit test. -/
def connectFrom {E : Type} (att : Nat → Except E Unit) :
    Nat → Nat → List Nat × Except E Nat
  | 0, i =>
    (match att i with
     | Except.ok _ => ([], Except.ok i)
     | Except.error e => ([], Except.error e))
  | fuel + 1, i =>
    match att i with
    | Except.ok _ => ([], Except.ok i)
    | Except.error e =>
      if i = 149 then ([], Except.error e)
      else
        let r := connectFrom att fuel (i + 1)
        (2 :: r.1, r.2)

def connect_and_execute_loop {E : Type} (att : Nat → Except E Unit) :
    List Nat × Except E Nat :=
  connectFrom att 149 0

theorem connectFrom_spec {E : Type} (att : Nat → Except E Unit) :
    ∀ (fuel i j : Nat), fuel + i = 149 → i ≤ j → j ≤ 149 →
      (∀ k, i ≤ k → k < j → ∃ e, att k = Except.error e) →
      (att j = Except.ok () →
        connectFrom att fuel i = (List.replicate (j - i) 2, Except.ok j)) ∧
      (∀ e, j = 149 → att j = Except.error e →
        connectFrom att fuel i = (List.replicate (149 - i) 2, Except.error e)) := by
  intro fuel
  induction fuel with
  | zero =>
    intro i j hfi hij hj149 hfail
    have hi : i = 149 := by omega
    have hji : j = 149 := by omega
    subst hi
    subst hji
    constructor
    · intro hok
      simp [connectFrom, hok]
    · intro e _ herr
      simp [connectFrom, herr]
  | succ n ih =>
    intro i j hfi hij hj149 hfail
    by_cases hij : i = j
    · subst hij
      constructor
      · intro hok
        simp [connectFrom, hok]
      · intro e hj149 herr
        exfalso
        omega
    · have hlt : i < j := by omega
      obtain ⟨ei, herri⟩ := hfail i (Nat.le_refl i) hlt
      have hi149 : ¬(i = 149) := by omega
      have hrec := ih (i + 1) j (by omega) (by omega) hj149
        (fun k hk1 hk2 => hfail k (by omega) hk2)
      constructor
      · intro hok
        have h1 := hrec.1 hok
        have hrepl : j - i = (j - (i + 1)) + 1 := by omega
        simp only [connectFrom, herri, hi149, if_false, h1, hrepl,
          List.replicate_succ]
      · intro e hj149' herr
        have h1 := hrec.2 e hj149' herr
        have hrepl : 149 - i = (149 - (i + 1)) + 1 := by omega
        simp only [connectFrom, herri, hi149, if_false, h1, hrepl,
          List.replicate_succ]

/-- C9.  The initial-connection retry loop treats any exception from an
attempt (connect, upload, chmod) as retryable with a fixed two-second
delay per retry, bounded at 150 attempts: if the first `j` attempts fail
and attempt `j` succeeds, the loop stops there after exactly `j`
two-second sleeps and reports attempt `j` (after which the script is
executed); if all 150 attempts fail, the exception of the final attempt
(index 149) is the one propagated, after 149 sleeps. -/
theorem connect_retry_policy {E : Type} (att : Nat → Except E Unit) (j : Nat)
    (hj : j < 150)
    (hfail : ∀ i, i < j → ∃ e, att i = Except.error e) :
    (att j = Except.ok () →
      connect_and_execute_loop att = (List.replicate j 2, Except.ok j)) ∧
    (∀ e, j = 149 → att j = Except.error e →
      connect_and_execute_loop att =
        (List.replicate 149 2, Except.error e)) := by
  have h := connectFrom_spec att 149 0 j (by omega) (by omega) (by omega)
    (fun k _ hk => hfail k hk)
  constructor
  · intro hok
    have h1 := h.1 hok
    simpa [connect_and_execute_loop] using h1
  · intro e h149 herr
    have h1 := h.2 e h149 herr
    simpa [connect_and_execute_loop] using h1

def attWitness : Nat → Except String Unit :=
  fun i => if i < 2 then Except.error "connection refused" else Except.ok ()

theorem connect_retry_policy_witness :
    connect_and_execute_loop attWitness = (List.replicate 2 2, Except.ok 2) :=
  (connect_retry_policy attWitness 2 (by omega)
    (fun i hi => ⟨"connection refused", by simp [attWitness, hi]⟩)).1
    (by simp [attWitness])

theorem cleanup_functions_runs_all_in_reverse_witness :
    (cleanup_scope_pure (some 7) [none, some 5, none]).executed =
      (List.range 3).reverse ∧
    ((cleanup_scope_pure (some 7) [none, some 5, none]).executed).count 1 = 1 := by
  have h := cleanup_functions_runs_all_in_reverse (some 7) [none, some 5, none]
  exact ⟨h.1, h.2 1 (by decide)⟩
